import Mathlib

/-!
Verification of the flashlearn spaced-repetition scheduler (SM-2 variant).

The scheduler lives in two places in the repository:
* a pure client-side module (`calculateNextReview`, `getNextReviewDate`,
  `isDue`, `initializeItem` in the SM-2 utility of `client/src/App.tsx`), and
* an inline copy inside the `POST /api/study/progress` handler in
  `server/routes.ts`.

JavaScript `number` values are modelled as exact rationals (`ℚ`); the
formulas in the source are exact decimal expressions, so every constant
(`0.1`, `0.08`, `0.02`, `1.3`, `2.5`) is representable. `Math.round` is
modelled by its specified behaviour `⌊x + 1/2⌋` (round half towards +∞).
JavaScript `Date` values are modelled as a calendar day number together
with a time-of-day offset; `setDate`-style day addition moves only the
day component, which is exactly the "calendar-day addition" the source
performs.
-/

namespace Flashlearn

/-- JavaScript `Math.round`: round half towards positive infinity,
`Math.round x = ⌊x + 1/2⌋`. -/
def mathRound (x : ℚ) : ℤ := ⌊x + 1/2⌋

/-- JavaScript `ToIntegerOrInfinity` on a finite number: truncation
towards zero (used by `Date.prototype.setDate` on its argument). -/
def jsToInteger (x : ℚ) : ℤ := if 0 ≤ x then ⌊x⌋ else -⌊-x⌋

/-- `SpacedRepetitionItem` from `client/src/App.tsx`:
`eFactor` (easiness factor), `interval` (days), `repetitions`
(consecutive successful recalls); all `number` fields, modelled as `ℚ`. -/
structure SpacedRepetitionItem where
  eFactor : ℚ
  interval : ℚ
  repetitions : ℚ
deriving DecidableEq, Repr

/-- The clamp at the top of `calculateNextReview`:
`quality = Math.max(0, Math.min(5, quality))`. -/
def clampQuality (q : ℚ) : ℚ := max 0 (min 5 q)

/-- The easiness delta added to the old easiness factor, the expression
`0.1 - (5 - quality) * (0.08 + (5 - quality) * 0.02)` appearing verbatim
at `client/src/App.tsx` (eFactor update) and `server/routes.ts`
(study-progress handler). -/
def easinessDelta (q : ℚ) : ℚ := 0.1 - (5 - q) * (0.08 + (5 - q) * 0.02)

/-- `calculateNextReview` from `client/src/App.tsx`: clamp the quality to
`[0,5]`, reset or grow `repetitions`, update the easiness factor with a
floor of `1.3`, and compute the new interval (1 on failure, 1 on the
first success, 6 on the second, `Math.round(interval * newEFactor)`
afterwards). -/
def calculateNextReview (item : SpacedRepetitionItem) (quality : ℚ) :
    SpacedRepetitionItem :=
  let q := clampQuality quality
  let newRepetitions : ℚ := if q < 3 then 0 else item.repetitions + 1
  let newEFactor : ℚ := max 1.3 (item.eFactor + easinessDelta q)
  let newInterval : ℚ :=
    if q < 3 then 1
    else if newRepetitions = 1 then 1
    else if newRepetitions = 2 then 6
    else ((mathRound (item.interval * newEFactor) : ℤ) : ℚ)
  { eFactor := newEFactor, interval := newInterval, repetitions := newRepetitions }

/-- `initializeItem` from `client/src/App.tsx`: `eFactor = 2.5`,
`interval = 0`, `repetitions = 0`. -/
def initializeItem : SpacedRepetitionItem :=
  { eFactor := 2.5, interval := 0, repetitions := 0 }

/-- A JavaScript `Date`, modelled as a calendar day number plus a
time-of-day offset in milliseconds. `setDate`-style arithmetic moves the
day component and leaves the time of day unchanged. -/
structure DateT where
  day : ℤ
  msOfDay : ℤ
deriving DecidableEq, Repr

/-- `d.setDate(d.getDate() + n)`: calendar-day addition — whole days are
added to the date, the time of day is untouched. -/
def DateT.addDays (d : DateT) (n : ℤ) : DateT := { d with day := d.day + n }

/-- Chronological order on dates (earlier day, or same day and
not-later time of day). JavaScript `<=` on `Date`s and the store
`lte` on ISO timestamps both denote this order. -/
def DateT.le (d e : DateT) : Prop :=
  d.day < e.day ∨ (d.day = e.day ∧ d.msOfDay ≤ e.msOfDay)

instance : LE DateT := ⟨DateT.le⟩

instance (d e : DateT) : Decidable (d ≤ e) :=
  inferInstanceAs (Decidable (d.day < e.day ∨ (d.day = e.day ∧ d.msOfDay ≤ e.msOfDay)))

/-- `getNextReviewDate` from `client/src/App.tsx`:
`nextDate.setDate(nextDate.getDate() + item.interval)` applied to the
current time (passed explicitly here, as the injected clock value). -/
def getNextReviewDate (item : SpacedRepetitionItem) (now : DateT) : DateT :=
  now.addDays (jsToInteger item.interval)

/-- `isDue` from `client/src/App.tsx`: `new Date() >= nextReviewDate`,
with the current time passed explicitly. -/
def isDue (nextReviewDate : DateT) (now : DateT) : Bool :=
  decide (nextReviewDate ≤ now)

/-- One row of `user_flashcard_progress` (`server/storage.ts`); the
`e_factor` column stores the easiness factor scaled by 100. -/
structure ProgressRow where
  user_id : String
  flashcard_id : ℚ
  e_factor : ℚ
  interval : ℚ
  repetitions : ℚ
  next_review : DateT
  last_reviewed : Option DateT
deriving DecidableEq, Repr

/-- `SupabaseStorage.getDueFlashcards` (`server/storage.ts`): select the
rows of `user_flashcard_progress` whose user column equals `userId` and
whose `next_review` column is `lte` (at or before) `now`, the table
modelled as a list of rows. -/
def getDueFlashcards (rows : List ProgressRow) (userId : String) (now : DateT) :
    List ProgressRow :=
  rows.filter fun r => r.user_id == userId && decide (r.next_review ≤ now)

/-- The inline SM-2 computation of the `POST /api/study/progress`
handler in `server/routes.ts`, as a function of the stored progress
fields (`e_factor`, kept scaled by 100 in storage, hence the `/ 100`;
`interval`; `repetitions`) and the validated `quality`. Returns the
`(newEFactor, newInterval, newRepetitions)` triple. -/
def serverSm2 (e_factor interval repetitions quality : ℚ) : ℚ × ℚ × ℚ :=
  let oldEFactor := e_factor / 100
  let newRepetitions : ℚ := if quality < 3 then 0 else repetitions + 1
  let newEFactor : ℚ := max 1.3 (oldEFactor + easinessDelta quality)
  let newInterval : ℚ :=
    if quality < 3 then 1
    else if newRepetitions = 1 then 1
    else if newRepetitions = 2 then 6
    else ((mathRound (interval * newEFactor) : ℤ) : ℚ)
  (newEFactor, newInterval, newRepetitions)

/-- A request-body field as far as the `typeof`-based
validation distinguishes it: a number, or any non-number value. -/
inductive BodyValue where
  | num (x : ℚ)
  | str (s : String)
  | undef
deriving DecidableEq, Repr

/-- The user columns the study-progress handler touches
(`storage.getUser` / `storage.updateUser`). -/
structure UserRow where
  id : String
  daily_progress : ℚ
  last_studied : Option DateT
deriving DecidableEq, Repr

/-- The row of `progress_stats` of a user for the current day, as written by
`SupabaseStorage.updateTodayStats` (an upsert keyed on user and day;
the model covers a single day). -/
structure StatsRow where
  user_id : String
  cards_reviewed : ℚ
  xp_earned : ℚ
  time_spent : ℚ
deriving DecidableEq, Repr

/-- The storage state the study-progress handler can read or write. -/
structure ServerState where
  progresses : List ProgressRow
  users : List UserRow
  stats : List StatsRow
deriving DecidableEq, Repr

/-- An HTTP request to `POST /api/study/progress`: whether the
authentication middleware attached a user (`isAuthenticated(req)`), that
id of that user, and the two body fields the handler destructures. -/
structure StudyProgressRequest where
  authenticated : Bool
  userId : String
  flashcardId : BodyValue
  quality : BodyValue
deriving DecidableEq, Repr

/-- `storage.updateUserFlashcardProgress`: replace the row for the given
learner/card pair. -/
def putProgress (rows : List ProgressRow) (uid : String) (fid : ℚ)
    (p : ProgressRow) : List ProgressRow :=
  rows.map fun r => if r.user_id == uid && r.flashcard_id == fid then p else r

/-- `SupabaseStorage.updateTodayStats`: upsert the current-day
`progress_stats` row of the user with the given field values. -/
def updateTodayStats (rows : List StatsRow) (uid : String)
    (cards xp time : ℚ) : List StatsRow :=
  if rows.any fun r => r.user_id == uid then
    rows.map fun r =>
      if r.user_id == uid then
        { r with cards_reviewed := cards, xp_earned := xp, time_spent := time }
      else r
  else
    rows ++ [{ user_id := uid, cards_reviewed := cards, xp_earned := xp,
               time_spent := time }]

/-- The `POST /api/study/progress` handler of `server/routes.ts`:
401 when unauthenticated; 400 when `flashcardId` or `quality` is not a
number or `quality` is outside `[0,5]`; otherwise get-or-create the
progress row, apply the inline SM-2 computation, store the updated row
(easiness rescaled to an integer, next review `newInterval` calendar
days from now), bump the daily progress of the user and the stats of
the current day, and
respond 200. Returns the response status and the resulting storage
state. -/
def studyProgressHandler (st : ServerState) (req : StudyProgressRequest)
    (now : DateT) : ℕ × ServerState :=
  if !req.authenticated then (401, st)
  else
    match req.flashcardId, req.quality with
    | BodyValue.num fid, BodyValue.num quality =>
      if quality < 0 ∨ 5 < quality then (400, st)
      else
        let found := st.progresses.find? fun r =>
          r.user_id == req.userId && r.flashcard_id == fid
        let progress : ProgressRow :=
          match found with
          | some p => p
          | none =>
            { user_id := req.userId, flashcard_id := fid, e_factor := 250,
              interval := 0, repetitions := 0, next_review := now,
              last_reviewed := none }
        let st1 : ServerState :=
          match found with
          | some _ => st
          | none => { st with progresses := st.progresses ++ [progress] }
        let sm2 := serverSm2 progress.e_factor progress.interval
          progress.repetitions quality
        let newEFactor := sm2.1
        let newInterval := sm2.2.1
        let newRepetitions := sm2.2.2
        let nextReview := now.addDays (jsToInteger newInterval)
        let updated : ProgressRow :=
          { progress with
              e_factor := ((mathRound (newEFactor * 100) : ℤ) : ℚ),
              interval := newInterval,
              repetitions := newRepetitions,
              next_review := nextReview,
              last_reviewed := some now }
        let st2 : ServerState :=
          { st1 with progresses := putProgress st1.progresses req.userId fid updated }
        let st3 : ServerState :=
          match st2.users.find? fun u => u.id == req.userId with
          | some u =>
            let users := st2.users.map fun v =>
              if v.id == req.userId then
                { v with daily_progress := u.daily_progress + 1,
                         last_studied := some now }
              else v
            { st2 with
                users := users,
                stats := updateTodayStats st2.stats req.userId 1
                  (if 3 ≤ quality then 10 else 5) 10 }
          | none => st2
        (200, st3)
    | _, _ => (400, st)

/-- `runUpdates qs` is the scheduling state after reviewing a card once
per entry of `qs` (the recall quality of each review), starting from
`initializeItem`. The review times do not enter `calculateNextReview`,
so a quality list determines the whole reachable state. -/
def runUpdates (qs : List ℚ) : SpacedRepetitionItem :=
  qs.foldl calculateNextReview initializeItem

/-- Rounding to the nearest integer with ties away from zero — the
rounding mode the spec names for the interval growth step. -/
def roundTiesAwayFromZero (x : ℚ) : ℤ :=
  if 0 ≤ x then ⌊x + 1/2⌋ else -⌊-x + 1/2⌋

/-- Invalid `quality` body field in the sense of the study-progress
validation: not a number, or a number outside `[0,5]`. -/
def invalidQuality (v : BodyValue) : Prop :=
  match v with
  | BodyValue.num x => x < 0 ∨ 5 < x
  | BodyValue.str _ => True
  | BodyValue.undef => True

/-- The invariant maintained by the scheduler along any run: easiness at
least `1.3`, a non-negative whole-number-valued repetition count, and an
interval of at least one day as soon as one repetition is recorded. -/
def SchedInv (r : SpacedRepetitionItem) : Prop :=
  1.3 ≤ r.eFactor ∧ 0 ≤ r.interval ∧
    (1 ≤ r.repetitions → 1 ≤ r.interval) ∧ ∃ n : ℕ, r.repetitions = (n : ℚ)

/-- A sample scheduling record used to instantiate universally
quantified theorems on concrete inputs. -/
def itemA : SpacedRepetitionItem := ⟨2.5, 6, 2⟩

/-- A sample date used to instantiate universally quantified theorems
on concrete inputs. -/
def dateA : DateT := ⟨0, 0⟩

/-- A sample empty storage state. -/
def emptyState : ServerState := ⟨[], [], []⟩

/-! ### Shared lemmas about the embedded definitions -/

lemma clampQuality_eq_self {q : ℚ} (h0 : 0 ≤ q) (h5 : q ≤ 5) :
    clampQuality q = q := by
  unfold clampQuality
  rw [min_eq_right h5, max_eq_right h0]

lemma clampQuality_idem (q : ℚ) :
    clampQuality (clampQuality q) = clampQuality q := by
  unfold clampQuality
  rcases le_total q 5 with h5 | h5
  · rw [min_eq_right h5]
    rcases le_total 0 q with h0 | h0
    · rw [max_eq_right h0, min_eq_right h5, max_eq_right h0]
    · rw [max_eq_left h0, min_eq_right (by norm_num), max_eq_right le_rfl]
  · rw [min_eq_left h5, max_eq_right (by norm_num), min_eq_left (by norm_num),
      max_eq_right (by norm_num)]

lemma clampQuality_lt_three_iff (q : ℚ) : clampQuality q < 3 ↔ q < 3 := by
  unfold clampQuality
  rcases le_total q 5 with h5 | h5
  · rw [min_eq_right h5]
    rcases le_total 0 q with h0 | h0
    · rw [max_eq_right h0]
    · rw [max_eq_left h0]
      constructor <;> intro <;> linarith
  · rw [min_eq_left h5, max_eq_right (by norm_num)]
    constructor <;> intro <;> linarith

lemma update_eFactor_eq (r : SpacedRepetitionItem) (q : ℚ) :
    (calculateNextReview r q).eFactor
      = max 1.3 (r.eFactor + easinessDelta (clampQuality q)) := rfl

lemma update_repetitions_eq (r : SpacedRepetitionItem) (q : ℚ) :
    (calculateNextReview r q).repetitions
      = if clampQuality q < 3 then 0 else r.repetitions + 1 := rfl

lemma update_interval_eq (r : SpacedRepetitionItem) (q : ℚ) :
    (calculateNextReview r q).interval
      = if clampQuality q < 3 then (1 : ℚ)
        else if (calculateNextReview r q).repetitions = 1 then 1
        else if (calculateNextReview r q).repetitions = 2 then 6
        else ((mathRound (r.interval * (calculateNextReview r q).eFactor) : ℤ) : ℚ) := rfl

lemma eFactor_floor (r : SpacedRepetitionItem) (q : ℚ) :
    (1.3 : ℚ) ≤ (calculateNextReview r q).eFactor := by
  rw [update_eFactor_eq]
  exact le_max_left _ _

lemma mathRound_nonneg {x : ℚ} (h : 0 ≤ x) : 0 ≤ mathRound x := by
  unfold mathRound
  exact Int.floor_nonneg.mpr (by linarith)

lemma mathRound_ge_one {x : ℚ} (h : 1/2 ≤ x) : 1 ≤ mathRound x := by
  unfold mathRound
  exact Int.le_floor.mpr (by push_cast; linarith)

lemma jsToInteger_intCast (n : ℤ) : jsToInteger (n : ℚ) = n := by
  unfold jsToInteger
  rcases le_or_lt 0 (n : ℚ) with h | h
  · rw [if_pos h, Int.floor_intCast]
  · rw [if_neg (not_le.mpr h)]
    rw [show -(n : ℚ) = ((-n : ℤ) : ℚ) by push_cast; ring, Int.floor_intCast]
    ring

lemma DateT.le_addDays (d : DateT) {n : ℤ} (h : 0 ≤ n) : d ≤ d.addDays n := by
  rcases lt_or_eq_of_le h with h' | h'
  · exact Or.inl (by simp [DateT.addDays]; omega)
  · exact Or.inr ⟨by simp [DateT.addDays, ← h'], le_rfl⟩

lemma update_clamp_invariant (r : SpacedRepetitionItem) (q : ℚ) :
    calculateNextReview r (clampQuality q) = calculateNextReview r q := by
  simp only [calculateNextReview, clampQuality_idem]

lemma update_interval_int (r : SpacedRepetitionItem) (q : ℚ)
    (hi : 0 ≤ r.interval) :
    ∃ n : ℤ, 0 ≤ n ∧ (calculateNextReview r q).interval = (n : ℚ) := by
  rw [update_interval_eq]
  split_ifs with h1 h2 h3
  · exact ⟨1, by norm_num, by norm_num⟩
  · exact ⟨1, by norm_num, by norm_num⟩
  · exact ⟨6, by norm_num, by norm_num⟩
  · exact ⟨mathRound (r.interval * (calculateNextReview r q).eFactor),
      mathRound_nonneg (mul_nonneg hi
        (le_trans (by norm_num) (eFactor_floor r q))), rfl⟩

lemma schedInv_init : SchedInv initializeItem :=
  ⟨by norm_num [initializeItem], by norm_num [initializeItem],
   by norm_num [initializeItem], 0, by norm_num [initializeItem]⟩

lemma schedInv_step (r : SpacedRepetitionItem) (q : ℚ) (h : SchedInv r) :
    SchedInv (calculateNextReview r q) ∧
      1 ≤ (calculateNextReview r q).interval := by
  obtain ⟨hE, hI, hRI, n, hn⟩ := h
  have hE' := eFactor_floor r q
  have hone : 1 ≤ (calculateNextReview r q).interval := by
    rw [update_interval_eq]
    split_ifs with h1 h2 h3
    · norm_num
    · norm_num
    · norm_num
    · rw [update_repetitions_eq, if_neg h1] at h2 h3
      have hn1 : n ≠ 0 := by
        intro hz
        apply h2
        rw [hn, hz]
        norm_num
      have hge : (1 : ℚ) ≤ r.repetitions := by
        rw [hn]
        exact_mod_cast Nat.one_le_iff_ne_zero.mpr hn1
      have hIge : (1 : ℚ) ≤ r.interval := hRI hge
      have hprod : (1 : ℚ) * 1.3 ≤ r.interval * (calculateNextReview r q).eFactor :=
        mul_le_mul hIge hE' (by norm_num) (le_trans (by norm_num) hIge)
      have hhalf : (1/2 : ℚ) ≤ r.interval * (calculateNextReview r q).eFactor := by
        linarith
      exact_mod_cast mathRound_ge_one hhalf
  refine ⟨⟨hE', le_trans (by norm_num) hone, fun _ => hone, ?_⟩, hone⟩
  rw [update_repetitions_eq]
  split_ifs
  · exact ⟨0, by norm_num⟩
  · exact ⟨n + 1, by rw [hn]; push_cast; ring⟩

lemma schedInv_fold (qs : List ℚ) :
    ∀ r : SpacedRepetitionItem, SchedInv r →
      SchedInv (qs.foldl calculateNextReview r) ∧
        (qs ≠ [] → 1 ≤ (qs.foldl calculateNextReview r).interval) := by
  induction qs with
  | nil =>
    intro r h
    exact ⟨h, fun hne => absurd rfl hne⟩
  | cons q qs ih =>
    intro r h
    have hstep := schedInv_step r q h
    have hrec := ih (calculateNextReview r q) hstep.1
    refine ⟨hrec.1, fun _ => ?_⟩
    cases qs with
    | nil => exact hstep.2
    | cons q2 qs2 => exact hrec.2 (List.cons_ne_nil q2 qs2)

/-! ### The claims -/

/-- C1: for every record with non-negative `intervalDays`, every clamped
quality in `[0,5]` and every review time, the updated interval is `1` on
failure, `1` after the first successful repetition, `6` after the
second, and otherwise the prior interval multiplied by the new easiness
factor, rounded to the nearest integer day with ties away from zero
(review times do not enter the interval computation). -/
theorem update_interval_formula (r : SpacedRepetitionItem) (q : ℚ)
    (hi : 0 ≤ r.interval) (h0 : 0 ≤ q) (h5 : q ≤ 5) :
    (calculateNextReview r q).interval
      = if q < 3 then 1
        else if (calculateNextReview r q).repetitions = 1 then 1
        else if (calculateNextReview r q).repetitions = 2 then 6
        else ((roundTiesAwayFromZero
          (r.interval * (calculateNextReview r q).eFactor) : ℤ) : ℚ) := by
  have hx : (0 : ℚ) ≤ r.interval * (calculateNextReview r q).eFactor :=
    mul_nonneg hi (le_trans (by norm_num) (eFactor_floor r q))
  have hround : roundTiesAwayFromZero
      (r.interval * (calculateNextReview r q).eFactor)
      = mathRound (r.interval * (calculateNextReview r q).eFactor) := by
    unfold roundTiesAwayFromZero mathRound
    rw [if_pos hx]
  rw [update_interval_eq, clampQuality_eq_self h0 h5, hround]

theorem update_interval_formula_witness :
    (0 : ℚ) ≤ itemA.interval ∧
    (calculateNextReview itemA 5).interval
      = (if (5 : ℚ) < 3 then 1
        else if (calculateNextReview itemA 5).repetitions = 1 then 1
        else if (calculateNextReview itemA 5).repetitions = 2 then 6
        else ((roundTiesAwayFromZero
          (itemA.interval * (calculateNextReview itemA 5).eFactor) : ℤ) : ℚ)) :=
  ⟨by norm_num [itemA],
   update_interval_formula itemA 5 (by norm_num [itemA]) (by norm_num) (by norm_num)⟩

/-- C2: for every record and clamped quality, the updated repetition
count is `0` when the quality is below 3 and the old count plus one when
the quality is at least 3 (review times do not enter the computation). -/
theorem update_repetitions_formula (r : SpacedRepetitionItem) (q : ℚ)
    (h0 : 0 ≤ q) (h5 : q ≤ 5) :
    (q < 3 → (calculateNextReview r q).repetitions = 0) ∧
    (3 ≤ q → (calculateNextReview r q).repetitions = r.repetitions + 1) := by
  rw [update_repetitions_eq, clampQuality_eq_self h0 h5]
  constructor
  · intro h
    rw [if_pos h]
  · intro h
    rw [if_neg (not_lt.mpr h)]

theorem update_repetitions_formula_witness :
    (calculateNextReview itemA 2).repetitions = 0 :=
  (update_repetitions_formula itemA 2 (by norm_num) (by norm_num)).1 (by norm_num)

/-- C3: for every record and every quality, the updated easiness factor
is at least `1.3` — it is clamped and never allowed to fall below. -/
theorem update_easiness_floor (r : SpacedRepetitionItem) (q : ℚ) :
    (1.3 : ℚ) ≤ (calculateNextReview r q).eFactor :=
  eFactor_floor r q

/-- C4: for every record and every integer quality outside `[0,5]`, the
update returns exactly the same record as the update at the clamped
quality — out-of-range quality is clamped silently, never rejected. -/
theorem update_clamps_out_of_range (r : SpacedRepetitionItem) (q : ℤ)
    (h : q < 0 ∨ 5 < q) :
    calculateNextReview r (q : ℚ)
      = calculateNextReview r (clampQuality (q : ℚ)) :=
  (update_clamp_invariant r (q : ℚ)).symm

theorem update_clamps_out_of_range_witness :
    calculateNextReview itemA ((7 : ℤ) : ℚ)
      = calculateNextReview itemA (clampQuality ((7 : ℤ) : ℚ)) :=
  update_clamps_out_of_range itemA 7 (Or.inr (by norm_num))

/-- C5 counterexample: at quality 4 the easiness delta is exactly zero,
not negative — an update at quality 4 leaves the easiness factor of the
sample record unchanged at `2.5`. -/
theorem easinessDelta_quality_four_zero :
    easinessDelta 4 = 0 ∧ ¬ easinessDelta 4 < 0 ∧
    (calculateNextReview itemA 4).eFactor = itemA.eFactor := by
  refine ⟨by norm_num [easinessDelta], by norm_num [easinessDelta], ?_⟩
  rw [update_eFactor_eq]
  norm_num [clampQuality, easinessDelta, itemA]

/-- C5 amended: the easiness delta applied by the update is positive at
quality 5, zero at quality 4, strictly negative for qualities at most 3,
strictly smaller at every lower quality, and smallest at quality 0. -/
theorem easinessDelta_monotone_spec :
    (∀ (r : SpacedRepetitionItem) (q : ℚ),
        (calculateNextReview r q).eFactor
          = max 1.3 (r.eFactor + easinessDelta (clampQuality q))) ∧
    0 < easinessDelta 5 ∧
    easinessDelta 4 = 0 ∧
    (∀ q : ℚ, 0 ≤ q → q ≤ 3 → easinessDelta q < 0) ∧
    (∀ q1 q2 : ℚ, 0 ≤ q1 → q1 < q2 → q2 ≤ 5 →
        easinessDelta q1 < easinessDelta q2) ∧
    (∀ q : ℚ, 0 < q → q ≤ 5 → easinessDelta 0 < easinessDelta q) := by
  refine ⟨update_eFactor_eq, by norm_num [easinessDelta],
    by norm_num [easinessDelta], ?_, ?_, ?_⟩
  · intro q h0 h3
    simp only [easinessDelta]
    nlinarith [mul_pos (show (0 : ℚ) < 4 - q by linarith)
      (show (0 : ℚ) < 10 - q by linarith)]
  · intro q1 q2 h0 hlt h5
    simp only [easinessDelta]
    nlinarith [mul_pos (show (0 : ℚ) < q2 - q1 by linarith)
      (show (0 : ℚ) < 14 - q1 - q2 by linarith)]
  · intro q h0 h5
    simp only [easinessDelta]
    nlinarith [mul_pos h0 (show (0 : ℚ) < 14 - q by linarith)]

theorem easinessDelta_monotone_spec_witness :
    easinessDelta 3 < 0 :=
  easinessDelta_monotone_spec.2.2.2.1 3 (by norm_num) (by norm_num)

/-- C6: for every record with non-negative `intervalDays` and every
review time `t`, the next review date of the updated record is `t` plus
the new interval in calendar days — the new interval is a whole number
of days added to the date — and is never before `t`. -/
theorem update_nextReview_date (r : SpacedRepetitionItem) (q : ℚ) (t : DateT)
    (hi : 0 ≤ r.interval) :
    getNextReviewDate (calculateNextReview r q) t
        = t.addDays (jsToInteger (calculateNextReview r q).interval) ∧
    ((jsToInteger (calculateNextReview r q).interval : ℤ) : ℚ)
        = (calculateNextReview r q).interval ∧
    t ≤ getNextReviewDate (calculateNextReview r q) t := by
  obtain ⟨n, hn0, hn⟩ := update_interval_int r q hi
  refine ⟨rfl, ?_, ?_⟩
  · rw [hn, jsToInteger_intCast]
  · unfold getNextReviewDate
    apply DateT.le_addDays
    rw [hn, jsToInteger_intCast]
    exact hn0

theorem update_nextReview_date_witness :
    dateA ≤ getNextReviewDate (calculateNextReview itemA 5) dateA :=
  (update_nextReview_date itemA 5 dateA (by norm_num [itemA])).2.2

/-- C7: every record reachable from `initializeItem` by a finite
sequence of updates (review times do not enter the computation) has an
interval of at least one day as soon as it has at least one repetition,
and an interval of zero only when no review in its history was an
acceptable recall (clamped quality at least 3). -/
theorem reachable_interval_invariant (qs : List ℚ) :
    (1 ≤ (runUpdates qs).repetitions → 1 ≤ (runUpdates qs).interval) ∧
    ((runUpdates qs).interval = 0 → ∀ q ∈ qs, clampQuality q < 3) := by
  have h := schedInv_fold qs initializeItem schedInv_init
  refine ⟨h.1.2.2.1, ?_⟩
  intro h0 q hq
  cases qs with
  | nil => exact absurd hq (List.not_mem_nil q)
  | cons q1 qs1 =>
    have h1 := h.2 (List.cons_ne_nil q1 qs1)
    have h0' : (List.foldl calculateNextReview initializeItem (q1 :: qs1)).interval
        = 0 := h0
    rw [h0'] at h1
    exact absurd h1 (by norm_num)

theorem reachable_interval_invariant_witness :
    1 ≤ (runUpdates [5]).interval :=
  (reachable_interval_invariant [5]).1
    (by norm_num [runUpdates, initializeItem, calculateNextReview,
      clampQuality, easinessDelta, List.foldl])

/-- C8: `isDue` returns `true` exactly when `now` is at or after the
next review date (boundary equality counts as due), and the due-query
of the store selects exactly the progress rows of the given user whose
next review satisfies this predicate. -/
theorem isDue_boundary_spec :
    (∀ nextReviewDate now : DateT,
        isDue nextReviewDate now = true ↔ nextReviewDate ≤ now) ∧
    (∀ (rows : List ProgressRow) (userId : String) (now : DateT)
        (p : ProgressRow),
        p ∈ getDueFlashcards rows userId now ↔
          p ∈ rows ∧ p.user_id = userId ∧ isDue p.next_review now = true) := by
  constructor
  · intro nr now
    simp [isDue]
  · intro rows uid now p
    simp [getDueFlashcards, List.mem_filter, isDue]

theorem isDue_boundary_spec_witness :
    isDue dateA dateA = true :=
  (isDue_boundary_spec.1 dateA dateA).mpr (by decide)

/-- C9: the inline SM-2 computation of the study-progress handler and
the shared client function agree — for every easiness `e` (stored
server-side as `100 * e`), non-negative integer interval and repetition
count, and integer quality in `[0,5]`, the handler computes exactly the
`(eFactor, interval, repetitions)` triple of `calculateNextReview`. -/
theorem server_inline_matches_shared (e : ℚ) (i n : ℕ) (q : ℤ)
    (h0 : 0 ≤ q) (h5 : q ≤ 5) :
    serverSm2 (e * 100) (i : ℚ) (n : ℚ) (q : ℚ)
      = ((calculateNextReview ⟨e, (i : ℚ), (n : ℚ)⟩ (q : ℚ)).eFactor,
         (calculateNextReview ⟨e, (i : ℚ), (n : ℚ)⟩ (q : ℚ)).interval,
         (calculateNextReview ⟨e, (i : ℚ), (n : ℚ)⟩ (q : ℚ)).repetitions) := by
  have hq0 : (0 : ℚ) ≤ (q : ℚ) := by exact_mod_cast h0
  have hq5 : ((q : ℚ)) ≤ 5 := by exact_mod_cast h5
  have hc : clampQuality (q : ℚ) = (q : ℚ) := clampQuality_eq_self hq0 hq5
  have he : e * 100 / 100 = e := by field_simp
  simp only [serverSm2, calculateNextReview, hc, he]

theorem server_inline_matches_shared_witness :
    serverSm2 (2.5 * 100) ((6 : ℕ) : ℚ) ((2 : ℕ) : ℚ) ((5 : ℤ) : ℚ)
      = ((calculateNextReview ⟨2.5, ((6 : ℕ) : ℚ), ((2 : ℕ) : ℚ)⟩ ((5 : ℤ) : ℚ)).eFactor,
         (calculateNextReview ⟨2.5, ((6 : ℕ) : ℚ), ((2 : ℕ) : ℚ)⟩ ((5 : ℤ) : ℚ)).interval,
         (calculateNextReview ⟨2.5, ((6 : ℕ) : ℚ), ((2 : ℕ) : ℚ)⟩ ((5 : ℤ) : ℚ)).repetitions) :=
  server_inline_matches_shared 2.5 6 2 5 (by norm_num) (by norm_num)

/-- C10 counterexample: an unauthenticated request with an invalid
quality field is answered with status 401, not 400 — the authentication
check precedes the body validation. -/
theorem studyProgress_unauthenticated_401 :
    studyProgressHandler emptyState
        ⟨false, "u", BodyValue.undef, BodyValue.str "bad"⟩ dateA
      = (401, emptyState) ∧ (401 : ℕ) ≠ 400 :=
  ⟨rfl, by norm_num⟩

/-- C10 amended: every authenticated request to the study-progress
endpoint whose quality field is not a number, below 0, or above 5 is
answered with status 400 and leaves the storage state unchanged — no
scheduling record is created or updated and no user stats change.
(Unauthenticated requests are answered with 401 before the body is
examined, also without any storage change.) -/
theorem studyProgress_invalid_quality_rejected (st : ServerState)
    (req : StudyProgressRequest) (now : DateT)
    (hauth : req.authenticated = true) (hq : invalidQuality req.quality) :
    studyProgressHandler st req now = (400, st) := by
  obtain ⟨auth, uid, fid, qv⟩ := req
  cases auth with
  | false => exact absurd hauth (by norm_num)
  | true =>
    cases fid <;> cases qv <;>
      simp_all [studyProgressHandler, invalidQuality]

theorem studyProgress_invalid_quality_rejected_witness :
    studyProgressHandler emptyState
        ⟨true, "u", BodyValue.num 1, BodyValue.num 6⟩ dateA
      = (400, emptyState) :=
  studyProgress_invalid_quality_rejected emptyState
    ⟨true, "u", BodyValue.num 1, BodyValue.num 6⟩ dateA rfl
    (Or.inr (by norm_num))

end Flashlearn
